import Mathlib

/-!
# HTML5 message subsystem: a shallow embedding

The development follows `HTML5MessageSubsystem.cpp` and `HTML5MessageSubsystem.h`.

* An `FString` is the sequence of characters of an engine string (the characters
  before its terminator); a byte is a natural number below 256.
* The engine primitives the two source files call but do not define (string
  conversion, `FString::Printf`, URL encoding, base64, the multicast delegate)
  are modelled from the specification, each under a doc comment saying so.
* The process state is a `World`: the static members of the translation unit,
  the delegate of every subsystem instance and two observation logs (listener
  invocations and transport calls).
-/

namespace HTML5Message

/-! ## Strings and bytes -/

/-- The engine string type: the characters of the string, in order. -/
abbrev FString := List Char

/-- UTF-8 bytes of one character. -/
def utf8EncodeChar (c : Char) : List Nat :=
  let n := c.toNat
  if n < 0x80 then [n]
  else if n < 0x800 then [0xC0 + n / 64, 0x80 + n % 64]
  else if n < 0x10000 then [0xE0 + n / 4096, 0x80 + n / 64 % 64, 0x80 + n % 64]
  else [0xF0 + n / 262144, 0x80 + n / 4096 % 64, 0x80 + n / 64 % 64, 0x80 + n % 64]

/-- Modelled from the spec: `FTCHARToUTF8` is the engine's string conversion, absent
from the sources; it yields the UTF-8 byte sequence of the text ("converts to a byte
sequence"). -/
def FTCHARToUTF8 (s : FString) : List Nat :=
  s.flatMap utf8EncodeChar

/-- A UTF-8 continuation byte, `10xxxxxx`. -/
def isCont (b : Nat) : Bool :=
  0x80 ≤ b && b < 0xC0

/-- The character of a decoded code point; `?` stands in for a value that is not a
Unicode scalar value. -/
def codepoint (n : Nat) : Char :=
  if n.isValidChar then Char.ofNat n else '?'

/-- Reading of a byte at the start of a sequence: the characters it completes, the
number of continuation bytes it announces and the payload bits it carries. -/
def utf8Start (b : Nat) : List Char × Nat × Nat :=
  if b < 0x80 then ([codepoint b], 0, 0)
  else if b < 0xC0 then (['?'], 0, 0)
  else if b < 0xE0 then ([], 1, b - 0xC0)
  else if b < 0xF0 then ([], 2, b - 0xE0)
  else if b < 0xF8 then ([], 3, b - 0xF0)
  else (['?'], 0, 0)

/-- UTF-8 decoding, byte by byte; `need` continuation bytes are still expected and `acc`
holds the bits read so far. A sequence that is cut short or starts with a byte that
opens no sequence gives `?`. -/
def utf8Decode : Nat → Nat → List Nat → FString
  | need, _, [] => if need = 0 then [] else ['?']
  | need, acc, b :: rest =>
    if need = 0 then
      (utf8Start b).1 ++ utf8Decode (utf8Start b).2.1 (utf8Start b).2.2 rest
    else if isCont b then
      if need = 1 then codepoint (acc * 64 + (b - 0x80)) :: utf8Decode 0 0 rest
      else utf8Decode (need - 1) (acc * 64 + (b - 0x80)) rest
    else '?' :: ((utf8Start b).1 ++ utf8Decode (utf8Start b).2.1 (utf8Start b).2.2 rest)

/-- Modelled from the spec: `UTF8_TO_TCHAR` is the engine's conversion from a UTF-8
byte string to the native string type, absent from the sources ("decodes to the native
string type", "converted best-effort ... lossy on invalid sequences"): a well-formed
sequence gives its character, an ill-formed one gives `?`. -/
def UTF8_TO_TCHAR (bytes : List Nat) : FString :=
  utf8Decode 0 0 bytes

/-- Modelled from the spec: `TCHAR_TO_ANSI` is the engine's narrowing conversion, absent
from the sources; a character of the 7-bit range keeps its code, any other becomes `?`. -/
def TCHAR_TO_ANSI (s : FString) : List Nat :=
  s.map (fun c => if c.toNat < 0x80 then c.toNat else 63)

/-- Modelled from the spec: `ANSI_TO_TCHAR` widens each byte of a single-byte text to the
character of that code; the engine macro is absent from the sources. -/
def ANSI_TO_TCHAR (bytes : List Nat) : FString :=
  bytes.map Char.ofNat

/-- A text whose characters all lie in the 7-bit range. -/
def IsAscii (s : FString) : Prop :=
  ∀ c ∈ s, c.toNat < 0x80

instance (s : FString) : Decidable (IsAscii s) :=
  inferInstanceAs (Decidable (∀ c ∈ s, c.toNat < 0x80))

/-- A text without the character U+0000, as every NUL-terminated string is. -/
def NoNul (s : FString) : Prop :=
  ∀ c ∈ s, c.toNat ≠ 0

instance (s : FString) : Decidable (NoNul s) :=
  inferInstanceAs (Decidable (∀ c ∈ s, c.toNat ≠ 0))

/-! ## `FString::Printf` -/

/-- Modelled from the spec: `FString::Printf` is engine code absent from the sources.
The format is copied character by character; each `%s` directive is replaced by the
next argument, inserted as it is; `%%` gives one percent sign. No other directive
occurs in the format used by `SendMessageToJS`. -/
def Printf : List Char → List FString → FString
  | [], _ => []
  | [c], _ => [c]
  | c :: d :: fmt, args =>
    if c = '%' ∧ d = 's' then
      match args with
      | a :: as => a ++ Printf fmt as
      | [] => Printf fmt []
    else if c = '%' ∧ d = '%' then '%' :: Printf fmt args
    else c :: Printf (d :: fmt) args

/-! ## URL encoding -/

/-- The bytes `FGenericPlatformHttp::UrlEncode` leaves as they are: ASCII letters,
digits and `-`, `_`, `.`, `~`. -/
def IsAllowedChar (b : Nat) : Bool :=
  (48 ≤ b && b ≤ 57) || (65 ≤ b && b ≤ 90) || (97 ≤ b && b ≤ 122) ||
    b = 45 || b = 95 || b = 46 || b = 126

/-- Upper-case hexadecimal digit of a value below 16. -/
def hexDigit (n : Nat) : Char :=
  if n < 10 then Char.ofNat (48 + n) else Char.ofNat (55 + n)

/-- Value of a hexadecimal digit, either case. -/
def hexValue (c : Char) : Option Nat :=
  let n := c.toNat
  if 48 ≤ n ∧ n ≤ 57 then some (n - 48)
  else if 65 ≤ n ∧ n ≤ 70 then some (n - 55)
  else if 97 ≤ n ∧ n ≤ 102 then some (n - 87)
  else none

/-- Percent-encoding of one byte. -/
def urlEncodeByte (b : Nat) : List Char :=
  if IsAllowedChar b then [Char.ofNat b] else ['%', hexDigit (b / 16), hexDigit (b % 16)]

/-- Modelled from the spec: `FGenericPlatformHttp::UrlEncode` is engine code absent from
the sources ("URL-encoding ... standard library functionality"): the text is converted
to UTF-8 and every byte outside the unreserved set is written as `%` and two upper-case
hexadecimal digits. -/
def UrlEncode (s : FString) : FString :=
  (FTCHARToUTF8 s).flatMap urlEncodeByte

/-- Bytes denoted by a percent-encoded text: `%XY` with two hexadecimal digits is one
byte, any other character stands for its own UTF-8 bytes. -/
def percentDecode : List Char → List Nat
  | [] => []
  | c :: rest =>
    if c = '%' then
      match rest with
      | h :: l :: r =>
        match hexValue h, hexValue l with
        | some a, some b => (a * 16 + b) :: percentDecode r
        | _, _ => utf8EncodeChar c ++ percentDecode (h :: l :: r)
      | r => utf8EncodeChar c ++ percentDecode r
    else utf8EncodeChar c ++ percentDecode rest

/-- Modelled from the spec: URL decoding, the inverse transformation the receiving side
applies ("base64-decode then URL-decode"); it is not part of the sources. The
percent-escapes are resolved to bytes and the bytes are read as UTF-8. -/
def UrlDecode (s : FString) : FString :=
  UTF8_TO_TCHAR (percentDecode s)

/-! ## Base64 -/

/-- The base64 alphabet of RFC 4648. -/
def base64Alphabet : List Char :=
  "ABCDEFGHIJKLMNOPQRSTUVWXYZabcdefghijklmnopqrstuvwxyz0123456789+/".toList

/-- Character of a 6-bit value. -/
def encodeSextet (n : Nat) : Char :=
  base64Alphabet.getD n '='

/-- The 6-bit value of a base64 character. -/
def decodeSextet (c : Char) : Option Nat :=
  let n := c.toNat
  if 65 ≤ n ∧ n ≤ 90 then some (n - 65)
  else if 97 ≤ n ∧ n ≤ 122 then some (n - 71)
  else if 48 ≤ n ∧ n ≤ 57 then some (n + 4)
  else if n = 43 then some 62
  else if n = 47 then some 63
  else none

/-- Base64 text of a byte sequence: three bytes give four characters, a final group of
one or two bytes is padded with `=`. -/
def base64EncodeBytes : List Nat → List Char
  | [] => []
  | [a] => [encodeSextet (a / 4), encodeSextet (a % 4 * 16), '=', '=']
  | [a, b] =>
    [encodeSextet (a / 4), encodeSextet (a % 4 * 16 + b / 16), encodeSextet (b % 16 * 4), '=']
  | a :: b :: c :: rest =>
    encodeSextet (a / 4) :: encodeSextet (a % 4 * 16 + b / 16) ::
      encodeSextet (b % 16 * 4 + c / 64) :: encodeSextet (c % 64) :: base64EncodeBytes rest

/-- Modelled from the spec: `FBase64::Encode` on a string is engine code absent from the
sources ("base64-encodes the URL-encoded text"): the text is narrowed to single bytes
and the bytes are base64-encoded. -/
def Base64Encode (s : FString) : FString :=
  base64EncodeBytes (TCHAR_TO_ANSI s)

/-- Modelled from the spec: base64 decoding, the inverse transformation the receiving
side applies; it is not part of the sources. Groups of four characters give three
bytes; padding is accepted only in the last group; anything else is rejected. -/
def Base64Decode : List Char → Option (List Nat)
  | [] => some []
  | c0 :: c1 :: c2 :: c3 :: rest =>
    if c2 = '=' ∧ c3 = '=' ∧ rest = [] then
      match decodeSextet c0, decodeSextet c1 with
      | some s0, some s1 => some [s0 * 4 + s1 / 16]
      | _, _ => none
    else if c3 = '=' ∧ rest = [] then
      match decodeSextet c0, decodeSextet c1, decodeSextet c2 with
      | some s0, some s1, some s2 => some [s0 * 4 + s1 / 16, s1 % 16 * 16 + s2 / 4]
      | _, _, _ => none
    else
      match decodeSextet c0, decodeSextet c1, decodeSextet c2, decodeSextet c3,
          Base64Decode rest with
      | some s0, some s1, some s2, some s3, some bytes =>
        some ((s0 * 4 + s1 / 16) :: (s1 % 16 * 16 + s2 / 4) :: (s2 % 4 * 64 + s3) :: bytes)
      | _, _, _, _, _ => none
  | _ => none

/-! ## Process state -/

/-- Identity of a `UHTML5MessageSubsystem` object (its address). -/
abbrev InstanceId := Nat

/-- Identity of a listener bound to a delegate (an object and one of its functions). -/
abbrev ListenerId := Nat

/-- One execution of a listener: the instance whose delegate ran it, the listener and
the string it received. -/
structure Invocation where
  owner : InstanceId
  listener : ListenerId
  message : FString
deriving DecidableEq

/-- One call `UE_SendJS(data, len)` of the transport primitive. -/
structure TransportCall where
  data : List Nat
  len : Nat
deriving DecidableEq

/-- Values of the file-scope member pointer `SendUE`, other than null. -/
inductive MemberFn where
  | OnMessageReceivedSignature
deriving DecidableEq

/-- The state the two source files read and write, with the logs that make the effects
of the engine collaborators observable.

* `HTML5MessageSubsystemPtr`, `SendUE`: the two statics of the `.cpp` file, both
  `nullptr` (`none`) at start.
* `OnMessageReceivedDelegate X`: the listeners bound to the delegate member of
  instance `X`, in registration order.
* `broadcasts`, `invocations`, `transport`: every `Broadcast` executed, every listener
  execution, every `UE_SendJS` call, oldest first.
* `tornDown`: the instances whose `Deinitialize` hook has run. -/
structure World where
  HTML5MessageSubsystemPtr : Option InstanceId
  SendUE : Option MemberFn
  OnMessageReceivedDelegate : InstanceId → List ListenerId
  broadcasts : List (InstanceId × FString)
  invocations : List Invocation
  transport : List TransportCall
  tornDown : List InstanceId

/-- The state at program start: both statics null, nothing registered, nothing logged. -/
def World.initial : World where
  HTML5MessageSubsystemPtr := none
  SendUE := none
  OnMessageReceivedDelegate := fun _ => []
  broadcasts := []
  invocations := []
  transport := []
  tornDown := []

/-- A call that did not complete: dereferencing the null singleton pointer. -/
inductive Fault where
  | nullDereference
deriving DecidableEq

/-- Result of a call: the state it leaves, or the fault together with the state at the
point of the fault. -/
abbrev Outcome := Except (Fault × World) World

/-- Strings delivered to listener `l` in a log of invocations, in order. -/
def deliveredTo (l : ListenerId) (log : List Invocation) : List FString :=
  (log.filter (fun i => i.listener = l)).map (fun i => i.message)

/-! ## The multicast delegate -/

/-- Modelled from the spec: `AddDynamic` on `FHTML5MessageDelegate` is engine code absent
from the sources ("external code subscribes ...; multiple subscribers may register"):
the listener is appended to the delegate of instance `X`. -/
def AddDynamic (X : InstanceId) (l : ListenerId) (w : World) : World :=
  { w with OnMessageReceivedDelegate := fun Y =>
      if Y = X then w.OnMessageReceivedDelegate Y ++ [l] else w.OnMessageReceivedDelegate Y }

/-- Modelled from the spec: `FHTML5MessageDelegate::Broadcast` is engine code absent from
the sources ("a one-to-many publish mechanism notifying all registered listeners
synchronously", "typically registration order"): one broadcast on the delegate of
`owner` runs every listener bound to it once per binding, in registration order, with
the message. -/
def Broadcast (owner : InstanceId) (Message : FString) (w : World) : World :=
  { w with
    broadcasts := w.broadcasts ++ [(owner, Message)]
    invocations := w.invocations ++
      (w.OnMessageReceivedDelegate owner).map (fun l => ⟨owner, l, Message⟩) }

/-! ## `UHTML5MessageSubsystem` -/

/-- `UHTML5MessageSubsystem::Initialize`: after the base-class hook (no effect on this
state) the statics are set to the receiver and to the member function. -/
def Initialize (this : InstanceId) (w : World) : Outcome :=
  .ok { w with
    HTML5MessageSubsystemPtr := some this
    SendUE := some MemberFn.OnMessageReceivedSignature }

/-- `UHTML5MessageSubsystem::Deinitialize`: the body is the base-class hook only; the
hook is recorded in `tornDown`, the statics are not touched. -/
def Deinitialize (this : InstanceId) (w : World) : Outcome :=
  .ok { w with tornDown := w.tornDown ++ [this] }

/-- `UHTML5MessageSubsystem::OnMessageReceivedSignature`: the receiver is not used; the
broadcast goes through `HTML5MessageSubsystemPtr->OnMessageReceivedDelegate`. -/
def OnMessageReceivedSignature (_this : InstanceId) (Message : FString) (w : World) : Outcome :=
  match w.HTML5MessageSubsystemPtr with
  | none => .error (Fault.nullDereference, w)
  | some p => .ok (Broadcast p Message w)

/-- The C string at a `const char*`: the bytes found there before the first 0 byte, the
terminator. -/
def CStr (indata : List Nat) : List Nat :=
  indata.takeWhile (fun b => b ≠ 0)

/-- The exported entry point `sendue(const char* indata)`; `indata` is the memory at the
pointer, of which the conversion reads the NUL-terminated string. -/
def sendue (indata : List Nat) (w : World) : Outcome :=
  let indataString := UTF8_TO_TCHAR (CStr indata)
  match w.HTML5MessageSubsystemPtr with
  | none => .error (Fault.nullDereference, w)
  | some p => OnMessageReceivedSignature p indataString w

/-- Line 66: the envelope `MessageString`. -/
def MessageString (MessageType Message : FString) : FString :=
  Printf "\x7b\"Command\":\"%s\",\"Message\":%s\x7d".toList [MessageType, Message]

/-- Lines 68 to 70: the final value of `SendBuff`. -/
def SendBuff (MessageType Message : FString) : FString :=
  let SendBuff := MessageString MessageType Message
  let SendBuff := UrlEncode SendBuff
  Base64Encode SendBuff

/-- `TArray::SetNum` on a byte array: truncate, or extend with zero bytes. -/
def SetNum (a : List Nat) (n : Nat) : List Nat :=
  a.take n ++ List.replicate (n - a.length) 0

/-- `FMemory::Memcpy(dest, src, count)`: the first `count` bytes of `dest` are replaced
by the first `count` bytes of `src`. -/
def Memcpy (dest src : List Nat) (count : Nat) : List Nat :=
  src.take count ++ dest.drop count

/-- Lines 67 and 72 to 74: the final content of `BufferArray`. -/
def BufferArray (MessageType Message : FString) : List Nat :=
  let BufferArray : List Nat := []
  let Converter := FTCHARToUTF8 (SendBuff MessageType Message)
  let BufferArray := SetNum BufferArray Converter.length
  Memcpy BufferArray Converter BufferArray.length

/-- The transport primitive `UE_SendJS(data, len)`, an opaque collaborator: the call is
logged. -/
def UE_SendJS (data : List Nat) (len : Nat) (w : World) : World :=
  { w with transport := w.transport ++ [⟨data, len⟩] }

/-- `UHTML5MessageSubsystem::SendMessageToJS`; `EMSCRIPTEN` tells whether `__EMSCRIPTEN__`
is defined (the browser build). -/
def SendMessageToJS (EMSCRIPTEN : Bool) (_this : InstanceId) (MessageType Message : FString)
    (w : World) : Outcome :=
  let BufferArray := BufferArray MessageType Message
  if EMSCRIPTEN then .ok (UE_SendJS BufferArray BufferArray.length w) else .ok w

/-! ## Histories -/

/-- The calls that can be made on the module; `init` and `deinit` are the lifecycle
hooks `Initialize` and `Deinitialize`. -/
inductive Op where
  | init (this : InstanceId)
  | deinit (this : InstanceId)
  | AddDynamic (X : InstanceId) (l : ListenerId)
  | OnMessageReceivedSignature (this : InstanceId) (Message : FString)
  | SendMessageToJS (this : InstanceId) (MessageType Message : FString)
  | sendue (indata : List Nat)
deriving DecidableEq

/-- One call. -/
def step (EMSCRIPTEN : Bool) : Op → World → Outcome
  | .init X, w => Initialize X w
  | .deinit X, w => Deinitialize X w
  | .AddDynamic X l, w => .ok (AddDynamic X l w)
  | .OnMessageReceivedSignature X m, w => OnMessageReceivedSignature X m w
  | .SendMessageToJS X t m, w => SendMessageToJS EMSCRIPTEN X t m w
  | .sendue indata, w => sendue indata w

/-- A sequence of calls, stopped by the first fault. -/
def run (EMSCRIPTEN : Bool) : List Op → World → Outcome
  | [], w => .ok w
  | op :: ops, w =>
    match step EMSCRIPTEN op w with
    | .ok w1 => run EMSCRIPTEN ops w1
    | .error e => .error e

/-- The receiver of an `Initialize` call. -/
def initializedInstance : Op → Option InstanceId
  | .init X => some X
  | _ => none

/-! ## The receiving side -/

/-- Modelled from the spec: the reversal the receiver applies to the transported bytes
("base64-decode then URL-decode"); it is not part of the sources. The bytes are read as
text, the text is base64-decoded, the decoded bytes are read as single-byte text and
that text is URL-decoded. -/
def decodePayload (payload : List Nat) : Option FString :=
  match Base64Decode (UTF8_TO_TCHAR payload) with
  | some bytes => some (UrlDecode (ANSI_TO_TCHAR bytes))
  | none => none

/-! ## States used in examples -/

/-- Instance 7 has run `Initialize`; listeners 10 and 11 are then registered on its
delegate and listener 12 on the delegate of instance 3. -/
def exampleWorld : World :=
  AddDynamic 3 12 (AddDynamic 7 11 (AddDynamic 7 10
    { World.initial with
      HTML5MessageSubsystemPtr := some 7
      SendUE := some MemberFn.OnMessageReceivedSignature }))

/-! ## Lemmas on the string conversions -/

theorem toNat_isValidChar (c : Char) : c.toNat.isValidChar := c.valid

theorem codepoint_toNat (c : Char) : codepoint c.toNat = c := by
  unfold codepoint
  rw [if_pos (toNat_isValidChar c)]
  exact Char.ofNat_toNat c

theorem toNat_lt (c : Char) : c.toNat < 0x110000 := by
  have h := toNat_isValidChar c
  unfold Nat.isValidChar at h
  omega

theorem isCont_low (n : Nat) : isCont (0x80 + n % 64) = true := by
  simp only [isCont, Bool.and_eq_true, decide_eq_true_eq]
  omega

theorem utf8Decode_encodeChar (c : Char) (rest : List Nat) :
    utf8Decode 0 0 (utf8EncodeChar c ++ rest) = c :: utf8Decode 0 0 rest := by
  have hlt := toNat_lt c
  have hc := codepoint_toNat c
  unfold utf8EncodeChar
  simp only
  split
  · rename_i h1
    simp [utf8Decode, utf8Start, h1, hc]
  · split
    · rename_i h1 h2
      have a1 : ¬ (0xC0 + c.toNat / 64 < 0x80) := by omega
      have a2 : ¬ (0xC0 + c.toNat / 64 < 0xC0) := by omega
      have a3 : 0xC0 + c.toNat / 64 < 0xE0 := by omega
      have e : c.toNat / 64 * 64 + c.toNat % 64 = c.toNat := by omega
      simp [utf8Decode, utf8Start, a1, a2, a3, isCont_low]
      rw [e, hc]
    · split
      · rename_i h1 h2 h3
        have a1 : ¬ (0xE0 + c.toNat / 4096 < 0x80) := by omega
        have a2 : ¬ (0xE0 + c.toNat / 4096 < 0xC0) := by omega
        have a3 : ¬ (0xE0 + c.toNat / 4096 < 0xE0) := by omega
        have a4 : 0xE0 + c.toNat / 4096 < 0xF0 := by omega
        have e : (c.toNat / 4096 * 64 + c.toNat / 64 % 64) * 64 + c.toNat % 64 = c.toNat := by
          omega
        simp [utf8Decode, utf8Start, a1, a2, a3, a4, isCont_low]
        rw [e, hc]
      · rename_i h1 h2 h3
        have a1 : ¬ (0xF0 + c.toNat / 262144 < 0x80) := by omega
        have a2 : ¬ (0xF0 + c.toNat / 262144 < 0xC0) := by omega
        have a3 : ¬ (0xF0 + c.toNat / 262144 < 0xE0) := by omega
        have a4 : ¬ (0xF0 + c.toNat / 262144 < 0xF0) := by omega
        have a5 : 0xF0 + c.toNat / 262144 < 0xF8 := by omega
        have e : ((c.toNat / 262144 * 64 + c.toNat / 4096 % 64) * 64 + c.toNat / 64 % 64) * 64
            + c.toNat % 64 = c.toNat := by omega
        simp [utf8Decode, utf8Start, a1, a2, a3, a4, a5, isCont_low]
        rw [e, hc]

theorem FTCHARToUTF8_cons (c : Char) (s : FString) :
    FTCHARToUTF8 (c :: s) = utf8EncodeChar c ++ FTCHARToUTF8 s := by
  simp [FTCHARToUTF8]

theorem UTF8_TO_TCHAR_FTCHARToUTF8 (s : FString) : UTF8_TO_TCHAR (FTCHARToUTF8 s) = s := by
  unfold UTF8_TO_TCHAR
  induction s with
  | nil => rfl
  | cons c s ih => rw [FTCHARToUTF8_cons, utf8Decode_encodeChar, ih]

theorem utf8EncodeChar_lt (c : Char) : ∀ b ∈ utf8EncodeChar c, b < 256 := by
  have hlt := toNat_lt c
  intro b hb
  unfold utf8EncodeChar at hb
  simp only at hb
  split at hb
  · simp at hb; omega
  · split at hb
    · simp at hb; omega
    · split at hb
      · simp at hb; omega
      · simp at hb; omega

theorem FTCHARToUTF8_lt (s : FString) : ∀ b ∈ FTCHARToUTF8 s, b < 256 := by
  intro b hb
  simp only [FTCHARToUTF8, List.mem_flatMap] at hb
  obtain ⟨c, _, hc⟩ := hb
  exact utf8EncodeChar_lt c b hc

theorem FTCHARToUTF8_ascii (s : FString) (h : IsAscii s) :
    FTCHARToUTF8 s = s.map Char.toNat := by
  induction s with
  | nil => rfl
  | cons c s ih =>
    have hc : c.toNat < 0x80 := h c (List.mem_cons_self c s)
    have hs : IsAscii s := fun d hd => h d (List.mem_cons_of_mem c hd)
    rw [FTCHARToUTF8_cons, ih hs]
    simp [utf8EncodeChar, hc]

theorem TCHAR_TO_ANSI_ascii (s : FString) (h : IsAscii s) :
    TCHAR_TO_ANSI s = s.map Char.toNat := by
  unfold TCHAR_TO_ANSI
  apply List.map_congr_left
  intro c hc
  simp [h c hc]

theorem ANSI_TO_TCHAR_toNat (s : FString) : ANSI_TO_TCHAR (s.map Char.toNat) = s := by
  induction s with
  | nil => rfl
  | cons c s ih =>
    have h : ANSI_TO_TCHAR ((c :: s).map Char.toNat) =
        Char.ofNat c.toNat :: ANSI_TO_TCHAR (s.map Char.toNat) := rfl
    rw [h, ih, Char.ofNat_toNat]

theorem CStr_of_ne_zero (bytes : List Nat) (h : ∀ b ∈ bytes, b ≠ 0) : CStr bytes = bytes := by
  induction bytes with
  | nil => rfl
  | cons b bytes ih =>
    have hb : b ≠ 0 := h b (List.mem_cons_self b bytes)
    have hs : ∀ x ∈ bytes, x ≠ 0 := fun x hx => h x (List.mem_cons_of_mem b hx)
    unfold CStr at ih ⊢
    rw [List.takeWhile_cons, ih hs]
    simp [hb]

theorem CStr_terminated (bytes tail : List Nat) (h : ∀ b ∈ bytes, b ≠ 0) :
    CStr (bytes ++ 0 :: tail) = bytes := by
  induction bytes with
  | nil => simp [CStr]
  | cons b bytes ih =>
    have hb : b ≠ 0 := h b (List.mem_cons_self b bytes)
    have hs : ∀ x ∈ bytes, x ≠ 0 := fun x hx => h x (List.mem_cons_of_mem b hx)
    unfold CStr at ih ⊢
    rw [List.cons_append, List.takeWhile_cons, ih hs]
    simp [hb]

theorem utf8EncodeChar_ne_zero (c : Char) (hc : c.toNat ≠ 0) :
    ∀ b ∈ utf8EncodeChar c, b ≠ 0 := by
  intro b hb
  unfold utf8EncodeChar at hb
  simp only at hb
  split at hb
  · simp at hb; omega
  · split at hb
    · simp at hb; omega
    · split at hb
      · simp at hb; omega
      · simp at hb; omega

theorem FTCHARToUTF8_ne_zero (s : FString) (h : NoNul s) : ∀ b ∈ FTCHARToUTF8 s, b ≠ 0 := by
  intro b hb
  simp only [FTCHARToUTF8, List.mem_flatMap] at hb
  obtain ⟨c, hc, hbc⟩ := hb
  exact utf8EncodeChar_ne_zero c (h c hc) b hbc

/-! ## Lemmas on URL encoding -/

set_option maxRecDepth 100000 in
theorem urlEncodeByte_allowed :
    ∀ b < 256, IsAllowedChar b = true →
      Char.ofNat b ≠ '%' ∧ utf8EncodeChar (Char.ofNat b) = [b] := by
  decide

set_option maxRecDepth 100000 in
theorem hexValue_hexDigit : ∀ n < 16, hexValue (hexDigit n) = some n := by
  decide

set_option maxRecDepth 100000 in
theorem urlEncodeByte_ascii : ∀ b < 256, ∀ c ∈ urlEncodeByte b, c.toNat < 0x80 := by
  decide

theorem percentDecode_cons_ne (c : Char) (rest : List Char) (h : c ≠ '%') :
    percentDecode (c :: rest) = utf8EncodeChar c ++ percentDecode rest := by
  rcases rest with _ | ⟨h1, _ | ⟨l1, r⟩⟩ <;> simp [percentDecode, h]

theorem percentDecode_escape (h l : Char) (a b : Nat) (rest : List Char)
    (ha : hexValue h = some a) (hb : hexValue l = some b) :
    percentDecode ('%' :: h :: l :: rest) = (a * 16 + b) :: percentDecode rest := by
  rw [percentDecode]
  simp [ha, hb]

theorem percentDecode_encodeByte (b : Nat) (hb : b < 256) (rest : List Char) :
    percentDecode (urlEncodeByte b ++ rest) = b :: percentDecode rest := by
  unfold urlEncodeByte
  by_cases hal : IsAllowedChar b = true
  · obtain ⟨hne, henc⟩ := urlEncodeByte_allowed b hb hal
    rw [if_pos hal, List.singleton_append, percentDecode_cons_ne _ _ hne, henc,
      List.singleton_append]
  · rw [if_neg hal]
    have h1 := hexValue_hexDigit (b / 16) (by omega)
    have h2 := hexValue_hexDigit (b % 16) (by omega)
    have e : b / 16 * 16 + b % 16 = b := by omega
    show percentDecode ('%' :: hexDigit (b / 16) :: hexDigit (b % 16) :: rest) = _
    rw [percentDecode_escape _ _ _ _ _ h1 h2, e]

theorem percentDecode_flatMap (bytes : List Nat) (h : ∀ b ∈ bytes, b < 256) :
    percentDecode (bytes.flatMap urlEncodeByte) = bytes := by
  induction bytes with
  | nil => rfl
  | cons b bytes ih =>
    have hb : b < 256 := h b (List.mem_cons_self b bytes)
    have hs : ∀ x ∈ bytes, x < 256 := fun x hx => h x (List.mem_cons_of_mem b hx)
    rw [List.flatMap_cons, percentDecode_encodeByte b hb, ih hs]

theorem UrlDecode_UrlEncode (s : FString) : UrlDecode (UrlEncode s) = s := by
  unfold UrlDecode UrlEncode
  rw [percentDecode_flatMap _ (FTCHARToUTF8_lt s), UTF8_TO_TCHAR_FTCHARToUTF8]

theorem UrlEncode_ascii (s : FString) : IsAscii (UrlEncode s) := by
  intro c hc
  simp only [UrlEncode, List.mem_flatMap] at hc
  obtain ⟨b, hb, hc⟩ := hc
  exact urlEncodeByte_ascii b (FTCHARToUTF8_lt s b hb) c hc

/-! ## Lemmas on base64 -/

set_option maxRecDepth 100000 in
theorem decodeSextet_encodeSextet :
    ∀ n < 64, decodeSextet (encodeSextet n) = some n ∧ encodeSextet n ≠ '=' ∧
      (encodeSextet n).toNat < 0x80 := by
  decide

theorem Base64Decode_base64EncodeBytes (bytes : List Nat) (h : ∀ b ∈ bytes, b < 256) :
    Base64Decode (base64EncodeBytes bytes) = some bytes := by
  induction bytes using base64EncodeBytes.induct with
  | case1 => rfl
  | case2 a =>
    have ha : a < 256 := h a (by simp)
    obtain ⟨d0, _, _⟩ := decodeSextet_encodeSextet (a / 4) (by omega)
    obtain ⟨d1, _, _⟩ := decodeSextet_encodeSextet (a % 4 * 16) (by omega)
    simp [base64EncodeBytes, Base64Decode, d0, d1]
    omega
  | case3 a b =>
    have ha : a < 256 := h a (by simp)
    have hb : b < 256 := h b (by simp)
    obtain ⟨d0, _, _⟩ := decodeSextet_encodeSextet (a / 4) (by omega)
    obtain ⟨d1, _, _⟩ := decodeSextet_encodeSextet (a % 4 * 16 + b / 16) (by omega)
    obtain ⟨d2, n2, _⟩ := decodeSextet_encodeSextet (b % 16 * 4) (by omega)
    have e0 : a / 4 * 4 + (a % 4 * 16 + b / 16) / 16 = a := by omega
    simp [base64EncodeBytes, Base64Decode, d0, d1, d2, n2, e0]
    omega
  | case4 a b c rest ih =>
    have ha : a < 256 := h a (by simp)
    have hb : b < 256 := h b (by simp)
    have hc : c < 256 := h c (by simp)
    have hr : ∀ x ∈ rest, x < 256 := fun x hx => h x (by simp [hx])
    obtain ⟨d0, _, _⟩ := decodeSextet_encodeSextet (a / 4) (by omega)
    obtain ⟨d1, _, _⟩ := decodeSextet_encodeSextet (a % 4 * 16 + b / 16) (by omega)
    obtain ⟨d2, n2, _⟩ := decodeSextet_encodeSextet (b % 16 * 4 + c / 64) (by omega)
    obtain ⟨d3, n3, _⟩ := decodeSextet_encodeSextet (c % 64) (by omega)
    have e0 : a / 4 * 4 + (a % 4 * 16 + b / 16) / 16 = a := by omega
    have e1 : (a % 4 * 16 + b / 16) % 16 * 16 + (b % 16 * 4 + c / 64) / 4 = b := by omega
    have e2 : (b % 16 * 4 + c / 64) % 4 * 64 + c % 64 = c := by omega
    simp [base64EncodeBytes, Base64Decode, d0, d1, d2, d3, n2, n3, e0, e1, e2, ih hr]

theorem base64EncodeBytes_ascii (bytes : List Nat) (h : ∀ b ∈ bytes, b < 256) :
    IsAscii (base64EncodeBytes bytes) := by
  induction bytes using base64EncodeBytes.induct with
  | case1 => intro c hc; simp [base64EncodeBytes] at hc
  | case2 a =>
    have ha : a < 256 := h a (by simp)
    have s0 := (decodeSextet_encodeSextet (a / 4) (by omega)).2.2
    have s1 := (decodeSextet_encodeSextet (a % 4 * 16) (by omega)).2.2
    intro c hc
    simp only [base64EncodeBytes, List.mem_cons, List.mem_singleton, List.not_mem_nil,
      or_false] at hc
    rcases hc with rfl | rfl | rfl | rfl
    · exact s0
    · exact s1
    · decide
    · decide
  | case3 a b =>
    have ha : a < 256 := h a (by simp)
    have hb : b < 256 := h b (by simp)
    have s0 := (decodeSextet_encodeSextet (a / 4) (by omega)).2.2
    have s1 := (decodeSextet_encodeSextet (a % 4 * 16 + b / 16) (by omega)).2.2
    have s2 := (decodeSextet_encodeSextet (b % 16 * 4) (by omega)).2.2
    intro c hc
    simp only [base64EncodeBytes, List.mem_cons, List.mem_singleton, List.not_mem_nil,
      or_false] at hc
    rcases hc with rfl | rfl | rfl | rfl
    · exact s0
    · exact s1
    · exact s2
    · decide
  | case4 a b c rest ih =>
    have ha : a < 256 := h a (by simp)
    have hb : b < 256 := h b (by simp)
    have hc : c < 256 := h c (by simp)
    have hr : ∀ x ∈ rest, x < 256 := fun x hx => h x (by simp [hx])
    have s0 := (decodeSextet_encodeSextet (a / 4) (by omega)).2.2
    have s1 := (decodeSextet_encodeSextet (a % 4 * 16 + b / 16) (by omega)).2.2
    have s2 := (decodeSextet_encodeSextet (b % 16 * 4 + c / 64) (by omega)).2.2
    have s3 := (decodeSextet_encodeSextet (c % 64) (by omega)).2.2
    intro x hx
    simp only [base64EncodeBytes, List.mem_cons] at hx
    rcases hx with rfl | rfl | rfl | rfl | hx
    · exact s0
    · exact s1
    · exact s2
    · exact s3
    · exact ih hr x hx

theorem TCHAR_TO_ANSI_lt (s : FString) : ∀ b ∈ TCHAR_TO_ANSI s, b < 256 := by
  intro b hb
  simp only [TCHAR_TO_ANSI, List.mem_map] at hb
  obtain ⟨c, _, rfl⟩ := hb
  split <;> omega

theorem Base64Encode_ascii (s : FString) : IsAscii (Base64Encode s) :=
  base64EncodeBytes_ascii _ (TCHAR_TO_ANSI_lt s)

/-! ## Lemmas on the outbound path -/

theorem MessageString_eq (MessageType Message : FString) :
    MessageString MessageType Message =
      "\x7b\"Command\":\"".toList ++ MessageType ++ "\",\"Message\":".toList ++ Message ++
        "\x7d".toList := by
  simp [MessageString, Printf]

theorem BufferArray_eq (MessageType Message : FString) :
    BufferArray MessageType Message = FTCHARToUTF8 (SendBuff MessageType Message) := by
  simp [BufferArray, SetNum, Memcpy]

theorem SendBuff_eq (MessageType Message : FString) :
    SendBuff MessageType Message = Base64Encode (UrlEncode (MessageString MessageType Message)) :=
  rfl

theorem SendMessageToJS_browser (this : InstanceId) (MessageType Message : FString) (w : World) :
    SendMessageToJS true this MessageType Message w =
      .ok (UE_SendJS (BufferArray MessageType Message) (BufferArray MessageType Message).length w) := by
  simp only [SendMessageToJS, if_true]

theorem SendMessageToJS_other (this : InstanceId) (MessageType Message : FString) (w : World) :
    SendMessageToJS false this MessageType Message w = .ok w := by
  simp only [SendMessageToJS, Bool.false_eq_true, if_false]

/-! ## Lemmas on broadcasts and histories -/

theorem deliveredTo_map (P : InstanceId) (s : FString) (l : ListenerId)
    (listeners : List ListenerId) :
    deliveredTo l (listeners.map (fun k => (⟨P, k, s⟩ : Invocation))) =
      List.replicate (listeners.count l) s := by
  induction listeners with
  | nil => rfl
  | cons k ks ih =>
    unfold deliveredTo at ih ⊢
    by_cases h : k = l
    · subst h
      simp [List.filter_cons, List.replicate_succ, ih]
    · have h2 : ¬ (k == l) = true := by simpa using h
      simp [List.filter_cons, h, List.count_cons, h2, ih]

theorem step_ptr (E : Bool) (op : Op) (w w1 : World) (h : step E op w = .ok w1) :
    w1.HTML5MessageSubsystemPtr = (initializedInstance op).or w.HTML5MessageSubsystemPtr := by
  cases op with
  | init X =>
    simp only [step, Initialize, Except.ok.injEq] at h
    subst h; rfl
  | deinit X =>
    simp only [step, Deinitialize, Except.ok.injEq] at h
    subst h; rfl
  | AddDynamic X l =>
    simp only [step, Except.ok.injEq] at h
    subst h; rfl
  | OnMessageReceivedSignature X m =>
    simp only [step, OnMessageReceivedSignature] at h
    cases hp : w.HTML5MessageSubsystemPtr with
    | none => simp [hp] at h
    | some p =>
      simp only [hp, Except.ok.injEq] at h
      subst h
      simp [initializedInstance, Broadcast, hp]
  | SendMessageToJS X t m =>
    simp only [step, SendMessageToJS] at h
    cases E with
    | true =>
      simp only [if_true, Except.ok.injEq] at h
      subst h; rfl
    | false =>
      simp at h
      subst h; rfl
  | sendue indata =>
    simp only [step, sendue, OnMessageReceivedSignature] at h
    cases hp : w.HTML5MessageSubsystemPtr with
    | none => simp [hp] at h
    | some p =>
      simp only [hp, Except.ok.injEq] at h
      subst h
      simp [initializedInstance, Broadcast, hp]

theorem run_ptr (E : Bool) (ops : List Op) (w w1 : World) (h : run E ops w = .ok w1) :
    w1.HTML5MessageSubsystemPtr =
      ((ops.filterMap initializedInstance).getLast?).or w.HTML5MessageSubsystemPtr := by
  induction ops generalizing w with
  | nil =>
    simp only [run, Except.ok.injEq] at h
    subst h; simp
  | cons op ops ih =>
    simp only [run] at h
    cases hs : step E op w with
    | error e => rw [hs] at h; simp at h
    | ok w2 =>
      rw [hs] at h
      have h1 := ih w2 h
      have h2 := step_ptr E op w w2 hs
      rw [h1, h2, List.filterMap_cons]
      cases hi : initializedInstance op with
      | none => simp
      | some X =>
        cases hl : (List.filterMap initializedInstance ops).getLast? with
        | none =>
          have : List.filterMap initializedInstance ops = [] := by
            simpa using hl
          simp [this, Option.or]
        | some Y =>
          rw [List.getLast?_cons, hl]
          simp [Option.or]

theorem mem_initialize_iff (ops : List Op) :
    (∃ X, Op.init X ∈ ops) ↔ (ops.filterMap initializedInstance).getLast? ≠ none := by
  rw [Ne, List.getLast?_eq_none_iff, List.filterMap_eq_nil_iff]
  constructor
  · rintro ⟨X, hX⟩ h
    have := h _ hX
    simp [initializedInstance] at this
  · intro h
    push_neg at h
    obtain ⟨op, hop, hne⟩ := h
    cases op <;> simp [initializedInstance] at hne
    exact ⟨_, hop⟩

/-! ## The claims -/

/-- C1: for every ASCII string `s` (a NUL-terminated string, so without U+0000) and every
state in which the singleton pointer designates an instance `P`, the call `sendue` on
the bytes of `s`, whatever follows their terminator, completes, performs exactly one
broadcast, of `s` itself, and runs the listeners registered on the delegate of `P`, each
once per registration with the string `s` unchanged; when the registered listeners are
pairwise distinct each of them receives exactly the one string `s`. -/
theorem sendue_ascii_delivers_unchanged (s : FString) (hs : IsAscii s) (hz : NoNul s)
    (w : World) (P : InstanceId) (hP : w.HTML5MessageSubsystemPtr = some P) :
    ∃ w' new, sendue (s.map Char.toNat) w = .ok w' ∧
      (∀ tail, sendue (s.map Char.toNat ++ 0 :: tail) w = .ok w') ∧
      w'.broadcasts = w.broadcasts ++ [(P, s)] ∧
      w'.invocations = w.invocations ++ new ∧
      new = (w.OnMessageReceivedDelegate P).map (fun l => (⟨P, l, s⟩ : Invocation)) ∧
      (∀ l, deliveredTo l new = List.replicate ((w.OnMessageReceivedDelegate P).count l) s) ∧
      ((w.OnMessageReceivedDelegate P).Nodup →
        ∀ l ∈ w.OnMessageReceivedDelegate P, deliveredTo l new = [s]) := by
  have hne : ∀ b ∈ s.map Char.toNat, b ≠ 0 := by
    intro b hb
    rw [List.mem_map] at hb
    obtain ⟨c, hc, rfl⟩ := hb
    exact hz c hc
  have hdec : UTF8_TO_TCHAR (s.map Char.toNat) = s := by
    rw [← FTCHARToUTF8_ascii s hs, UTF8_TO_TCHAR_FTCHARToUTF8]
  refine ⟨Broadcast P s w, _, ?_, ?_, rfl, rfl, rfl, ?_, ?_⟩
  · simp only [sendue, OnMessageReceivedSignature, hP, CStr_of_ne_zero _ hne, hdec]
  · intro tail
    simp only [sendue, OnMessageReceivedSignature, hP, CStr_terminated _ tail hne, hdec]
  · intro l
    exact deliveredTo_map P s l _
  · intro hnd l hl
    rw [deliveredTo_map, List.count_eq_one_of_mem hnd hl]
    rfl

/-- Witness of C1 on the string `hi` in the example state. -/
theorem sendue_ascii_delivers_unchanged_witness :
    IsAscii "hi".toList ∧ NoNul "hi".toList ∧
      exampleWorld.HTML5MessageSubsystemPtr = some 7 ∧
      (exampleWorld.OnMessageReceivedDelegate 7).Nodup ∧
      ∃ w', sendue [104, 105] exampleWorld = .ok w' ∧
        sendue [104, 105, 0, 33] exampleWorld = .ok w' ∧
        w'.broadcasts = [(7, "hi".toList)] ∧
        w'.invocations = [⟨7, 10, "hi".toList⟩, ⟨7, 11, "hi".toList⟩] ∧
        deliveredTo 10 w'.invocations = ["hi".toList] ∧
        deliveredTo 11 w'.invocations = ["hi".toList] := by
  obtain ⟨w', new, h1, ht, h2, h3, h4, _, h6⟩ :=
    sendue_ascii_delivers_unchanged "hi".toList (by decide) (by decide) exampleWorld 7 rfl
  have hnd : (exampleWorld.OnMessageReceivedDelegate 7).Nodup := by decide
  have hinv : w'.invocations = new := by rw [h3]; rfl
  refine ⟨by decide, by decide, rfl, hnd, w', h1, ht [33], ?_, ?_, ?_, ?_⟩
  · rw [h2]; rfl
  · rw [hinv, h4]; rfl
  · rw [hinv]; exact h6 hnd 10 (by decide)
  · rw [hinv]; exact h6 hnd 11 (by decide)

/-- C2: for every command name and message, without any validation, the envelope built
by `SendMessageToJS` is the concatenation of `{"Command":"`, the command name,
`","Message":`, the message and `}`; in particular `send("Foo", "\"bar\"")` builds
`{"Command":"Foo","Message":"bar"}`. -/
theorem MessageString_is_concatenation :
    (∀ commandName message : FString,
      MessageString commandName message =
        "\x7b\"Command\":\"".toList ++ commandName ++ "\",\"Message\":".toList ++ message ++
          "\x7d".toList) ∧
    MessageString "Foo".toList "\"bar\"".toList =
      "\x7b\"Command\":\"Foo\",\"Message\":\"bar\"\x7d".toList :=
  ⟨MessageString_eq, by decide⟩

/-- C3: for every command name and message, base64-decoding the bytes prepared for the
transport and URL-decoding the result succeeds and gives back exactly the envelope; for
`send("Foo", "\"bar\"")` the result is `{"Command":"Foo","Message":"bar"}`. -/
theorem outbound_encoding_round_trip :
    (∀ commandName message : FString,
      decodePayload (BufferArray commandName message) =
        some (MessageString commandName message)) ∧
    decodePayload (BufferArray "Foo".toList "\"bar\"".toList) =
      some "\x7b\"Command\":\"Foo\",\"Message\":\"bar\"\x7d".toList := by
  have key : ∀ commandName message : FString,
      decodePayload (BufferArray commandName message) =
        some (MessageString commandName message) := by
    intro t m
    have hU : IsAscii (UrlEncode (MessageString t m)) := UrlEncode_ascii _
    unfold decodePayload
    rw [BufferArray_eq, UTF8_TO_TCHAR_FTCHARToUTF8, SendBuff_eq]
    unfold Base64Encode
    rw [Base64Decode_base64EncodeBytes _ (TCHAR_TO_ANSI_lt _)]
    simp only
    rw [TCHAR_TO_ANSI_ascii _ hU, ANSI_TO_TCHAR_toNat, UrlDecode_UrlEncode]
  refine ⟨key, ?_⟩
  rw [key]
  exact congrArg some (by decide)

/-- C4: for every command name and message, the bytes prepared for the transport are the
byte sequence of `Base64Encode (UrlEncode envelope)`; in the browser build the call
makes exactly one transport call, carrying those bytes and their number as length; in
any build the call makes at most one transport call, and none outside the browser. -/
theorem SendMessageToJS_payload_and_transport (this : InstanceId)
    (commandName message : FString) (w : World) :
    BufferArray commandName message =
        FTCHARToUTF8 (Base64Encode (UrlEncode (MessageString commandName message))) ∧
    (∃ w', SendMessageToJS true this commandName message w = .ok w' ∧
      w'.transport = w.transport ++
        [⟨BufferArray commandName message, (BufferArray commandName message).length⟩]) ∧
    (∃ w', SendMessageToJS false this commandName message w = .ok w' ∧
      w'.transport = w.transport) ∧
    (∀ E, ∃ w' calls, SendMessageToJS E this commandName message w = .ok w' ∧
      w'.transport = w.transport ++ calls ∧ calls.length ≤ 1 ∧
      ∀ c ∈ calls, c.data = BufferArray commandName message ∧ c.len = c.data.length) := by
  have hb := SendMessageToJS_browser this commandName message w
  have ho := SendMessageToJS_other this commandName message w
  refine ⟨?_, ⟨_, hb, rfl⟩, ⟨_, ho, rfl⟩, ?_⟩
  · rw [BufferArray_eq, SendBuff_eq]
  · intro E
    generalize BufferArray commandName message = B at hb
    cases E with
    | true =>
      refine ⟨_, [⟨B, B.length⟩], hb, rfl, Nat.le_refl 1, ?_⟩
      intro c hc
      rw [List.mem_singleton] at hc
      subst hc
      exact ⟨rfl, rfl⟩
    | false =>
      refine ⟨w, [], ho, (List.append_nil _).symm, Nat.zero_le 1, ?_⟩
      intro c hc
      cases hc

/-- C5: for every message and every state whose singleton pointer designates `P`, one
call of `OnMessageReceivedSignature` performs one broadcast; it runs only listeners
registered on the delegate of `P`, each once per registration and with that message, so
that pairwise distinct registered listeners are each run exactly once and a listener
that is not registered is not run. -/
theorem broadcast_invokes_each_listener_once (this : InstanceId) (message : FString)
    (w : World) (P : InstanceId) (hP : w.HTML5MessageSubsystemPtr = some P) :
    ∃ w' new, OnMessageReceivedSignature this message w = .ok w' ∧
      w'.broadcasts = w.broadcasts ++ [(P, message)] ∧
      w'.invocations = w.invocations ++ new ∧
      (∀ i ∈ new, i.listener ∈ w.OnMessageReceivedDelegate P ∧ i.message = message) ∧
      (∀ l, deliveredTo l new =
        List.replicate ((w.OnMessageReceivedDelegate P).count l) message) ∧
      (∀ l, l ∉ w.OnMessageReceivedDelegate P → deliveredTo l new = []) ∧
      ((w.OnMessageReceivedDelegate P).Nodup →
        ∀ l ∈ w.OnMessageReceivedDelegate P, deliveredTo l new = [message]) := by
  refine ⟨Broadcast P message w,
    (w.OnMessageReceivedDelegate P).map (fun l => (⟨P, l, message⟩ : Invocation)),
    ?_, rfl, rfl, ?_, ?_, ?_, ?_⟩
  · simp only [OnMessageReceivedSignature, hP]
  · intro i hi
    rw [List.mem_map] at hi
    obtain ⟨l, hl, rfl⟩ := hi
    exact ⟨hl, rfl⟩
  · intro l
    exact deliveredTo_map P message l _
  · intro l hl
    rw [deliveredTo_map, List.count_eq_zero_of_not_mem hl]
    rfl
  · intro hnd l hl
    rw [deliveredTo_map, List.count_eq_one_of_mem hnd hl]
    rfl

/-- Witness of C5: two listeners registered on instance 7, one broadcast. -/
theorem broadcast_invokes_each_listener_once_witness :
    exampleWorld.HTML5MessageSubsystemPtr = some 7 ∧
      exampleWorld.OnMessageReceivedDelegate 7 = [10, 11] ∧
      ∃ w', OnMessageReceivedSignature 3 "go".toList exampleWorld = .ok w' ∧
        deliveredTo 10 w'.invocations = ["go".toList] ∧
        deliveredTo 11 w'.invocations = ["go".toList] ∧
        deliveredTo 12 w'.invocations = [] := by
  obtain ⟨w', new, h1, _, h3, _, _, h6, h7⟩ :=
    broadcast_invokes_each_listener_once 3 "go".toList exampleWorld 7 rfl
  have hnd : (exampleWorld.OnMessageReceivedDelegate 7).Nodup := by decide
  have hinv : w'.invocations = new := by rw [h3]; rfl
  refine ⟨rfl, rfl, w', h1, ?_, ?_, ?_⟩
  · rw [hinv]; exact h7 hnd 10 (by decide)
  · rw [hinv]; exact h7 hnd 11 (by decide)
  · rw [hinv]; exact h6 12 (by decide)

/-- C6: for every command name, message and state (listeners registered or not,
`Initialize` run or not), `SendMessageToJS` completes without error and leaves the
singleton pointer, the registered listeners and the logs of broadcasts and listener
executions unchanged; outside the browser build it leaves the whole state unchanged,
the transport log included. -/
theorem SendMessageToJS_no_error_no_broadcast (E : Bool) (this : InstanceId)
    (commandName message : FString) (w : World) :
    (∃ w', SendMessageToJS E this commandName message w = .ok w' ∧
      w'.HTML5MessageSubsystemPtr = w.HTML5MessageSubsystemPtr ∧
      w'.SendUE = w.SendUE ∧
      w'.OnMessageReceivedDelegate = w.OnMessageReceivedDelegate ∧
      w'.broadcasts = w.broadcasts ∧
      w'.invocations = w.invocations ∧
      w'.tornDown = w.tornDown) ∧
    SendMessageToJS false this commandName message w = .ok w ∧
    SendMessageToJS false this commandName message World.initial = .ok World.initial := by
  refine ⟨?_, SendMessageToJS_other _ _ _ _, SendMessageToJS_other _ _ _ _⟩
  cases E with
  | true => exact ⟨_, SendMessageToJS_browser _ _ _ _, rfl, rfl, rfl, rfl, rfl, rfl⟩
  | false => exact ⟨_, SendMessageToJS_other _ _ _ _, rfl, rfl, rfl, rfl, rfl, rfl⟩

/-- C7: `Deinitialize` completes and leaves the singleton pointer as it was, in every
state; after `Initialize` and then `Deinitialize` on the same instance the pointer still
designates that instance, now torn down, and `sendue` still broadcasts the text of its
NUL-terminated argument through the delegate of that instance. -/
theorem Deinitialize_keeps_singleton (E : Bool) (this : InstanceId) (w : World)
    (indata : List Nat) :
    (∃ w', Deinitialize this w = .ok w' ∧
      w'.HTML5MessageSubsystemPtr = w.HTML5MessageSubsystemPtr ∧
      w'.SendUE = w.SendUE ∧
      w'.OnMessageReceivedDelegate = w.OnMessageReceivedDelegate ∧
      this ∈ w'.tornDown) ∧
    (∃ w1, run E [Op.init this, Op.deinit this] w = .ok w1 ∧
      w1.HTML5MessageSubsystemPtr = some this ∧
      this ∈ w1.tornDown ∧
      sendue indata w1 = .ok (Broadcast this (UTF8_TO_TCHAR (CStr indata)) w1) ∧
      (Broadcast this (UTF8_TO_TCHAR (CStr indata)) w1).invocations =
        w1.invocations ++ (w.OnMessageReceivedDelegate this).map
          (fun l => (⟨this, l, UTF8_TO_TCHAR (CStr indata)⟩ : Invocation))) := by
  refine ⟨⟨_, rfl, rfl, rfl, rfl, by simp⟩, ⟨_, rfl, rfl, by simp, rfl, rfl⟩⟩

/-- C8: `sendue` reaches the broadcast exactly when the singleton pointer is not null;
with a null pointer it faults on the dereference in the state it was called in, so no
listener is run; and in a history that starts at program start the pointer is not null
exactly when some `Initialize` has run. -/
theorem sendue_ok_iff_initialized (E : Bool) (indata : List Nat) :
    (∀ w p, w.HTML5MessageSubsystemPtr = some p →
      sendue indata w = .ok (Broadcast p (UTF8_TO_TCHAR (CStr indata)) w)) ∧
    (∀ w, w.HTML5MessageSubsystemPtr = none →
      sendue indata w = .error (Fault.nullDereference, w)) ∧
    (∀ w, (∃ w', sendue indata w = .ok w') ↔ w.HTML5MessageSubsystemPtr ≠ none) ∧
    (∀ ops w, run E ops World.initial = .ok w →
      (w.HTML5MessageSubsystemPtr ≠ none ↔ ∃ X, Op.init X ∈ ops)) ∧
    (∀ ops w, (∀ X, Op.init X ∉ ops) → run E ops World.initial = .ok w →
      sendue indata w = .error (Fault.nullDereference, w)) ∧
    sendue indata World.initial = .error (Fault.nullDereference, World.initial) := by
  have hsome : ∀ w p, w.HTML5MessageSubsystemPtr = some p →
      sendue indata w = .ok (Broadcast p (UTF8_TO_TCHAR (CStr indata)) w) := by
    intro w p hp
    simp only [sendue, OnMessageReceivedSignature, hp]
  have hnone : ∀ w, w.HTML5MessageSubsystemPtr = none →
      sendue indata w = .error (Fault.nullDereference, w) := by
    intro w hp
    simp only [sendue, hp]
  have hist : ∀ ops w, run E ops World.initial = .ok w →
      (w.HTML5MessageSubsystemPtr ≠ none ↔ ∃ X, Op.init X ∈ ops) := by
    intro ops w h
    have hp := run_ptr E ops World.initial w h
    rw [mem_initialize_iff, hp]
    simp [World.initial]
  refine ⟨hsome, hnone, ?_, hist, ?_, hnone _ rfl⟩
  · intro w
    cases hp : w.HTML5MessageSubsystemPtr with
    | none => simp [hnone w hp]
    | some p => simp [hsome w p hp]
  · intro ops w hno h
    apply hnone
    by_contra hne
    obtain ⟨X, hX⟩ := (hist ops w h).mp hne
    exact hno X hX

/-- Witness of C8: a history without `Initialize`, after which `sendue` faults. -/
theorem sendue_ok_iff_initialized_witness :
    run false [Op.AddDynamic 7 10, Op.SendMessageToJS 7 "Foo".toList "1".toList]
        World.initial = .ok (AddDynamic 7 10 World.initial) ∧
      sendue [104, 105] (AddDynamic 7 10 World.initial) =
        .error (Fault.nullDereference, AddDynamic 7 10 World.initial) := by
  have hrun : run false [Op.AddDynamic 7 10, Op.SendMessageToJS 7 "Foo".toList "1".toList]
      World.initial = .ok (AddDynamic 7 10 World.initial) := by
    simp only [run, step, SendMessageToJS_other]
  refine ⟨hrun, ?_⟩
  refine (sendue_ok_iff_initialized false [104, 105]).2.2.2.2.1 _ _ ?_ hrun
  intro X hX
  simp at hX

/-- C9: a broadcast goes through the delegate of the instance the singleton pointer
designates, whatever the receiver; in a history from program start that instance is the
one that ran `Initialize` last. After `Initialize` on `A` and then on a different `B`,
`sendue` and `A.OnMessageReceivedSignature(m)` both run the listeners registered on
`B`, once per registration, and run nothing through the delegate of `A`: `sendue`
delivers the text of its NUL-terminated argument, which is `m` for the bytes of an `m`
without U+0000. -/
theorem broadcast_through_singleton (E : Bool) (A B : InstanceId) (hAB : A ≠ B)
    (m : FString) (w : World) :
    (∀ X w0 P, w0.HTML5MessageSubsystemPtr = some P →
      OnMessageReceivedSignature X m w0 = .ok (Broadcast P m w0)) ∧
    (∀ ops w0, run E ops World.initial = .ok w0 →
      w0.HTML5MessageSubsystemPtr = (ops.filterMap initializedInstance).getLast?) ∧
    ∃ w1 new, run E [Op.init A, Op.init B] w = .ok w1 ∧
      w1.HTML5MessageSubsystemPtr = some B ∧
      w1.OnMessageReceivedDelegate = w.OnMessageReceivedDelegate ∧
      (∀ indata, sendue indata w1 = .ok (Broadcast B (UTF8_TO_TCHAR (CStr indata)) w1) ∧
        (Broadcast B (UTF8_TO_TCHAR (CStr indata)) w1).invocations =
          w1.invocations ++ (w.OnMessageReceivedDelegate B).map
            (fun l => (⟨B, l, UTF8_TO_TCHAR (CStr indata)⟩ : Invocation))) ∧
      (NoNul m → sendue (FTCHARToUTF8 m) w1 = .ok (Broadcast B m w1)) ∧
      OnMessageReceivedSignature A m w1 = .ok (Broadcast B m w1) ∧
      (Broadcast B m w1).invocations = w1.invocations ++ new ∧
      new = (w.OnMessageReceivedDelegate B).map (fun l => (⟨B, l, m⟩ : Invocation)) ∧
      (∀ l, deliveredTo l new =
        List.replicate ((w.OnMessageReceivedDelegate B).count l) m) ∧
      (∀ i ∈ new, i.owner ≠ A) := by
  refine ⟨?_, ?_, ?_⟩
  · intro X w0 P hP
    simp only [OnMessageReceivedSignature, hP]
  · intro ops w0 h
    have hp := run_ptr E ops World.initial w0 h
    rw [hp]
    simp [World.initial]
  · refine ⟨_, _, rfl, rfl, rfl, ?_, ?_, rfl, rfl, rfl, ?_, ?_⟩
    · intro indata
      exact ⟨rfl, rfl⟩
    · intro hm
      simp only [sendue, OnMessageReceivedSignature,
        CStr_of_ne_zero _ (FTCHARToUTF8_ne_zero m hm), UTF8_TO_TCHAR_FTCHARToUTF8]
    · intro l
      exact deliveredTo_map B m l _
    · intro i hi
      rw [List.mem_map] at hi
      obtain ⟨l, _, rfl⟩ := hi
      exact fun h => hAB h.symm

/-- Witness of C9: `Initialize` on instance 3 and then on instance 7. -/
theorem broadcast_through_singleton_witness :
    (3 : InstanceId) ≠ 7 ∧ NoNul "hi".toList ∧
      ∃ w1, run false [Op.init 3, Op.init 7] exampleWorld = .ok w1 ∧
        sendue [104, 105] w1 = .ok (Broadcast 7 "hi".toList w1) ∧
        OnMessageReceivedSignature 3 "hi".toList w1 = .ok (Broadcast 7 "hi".toList w1) ∧
        (Broadcast 7 "hi".toList w1).invocations =
          [⟨7, 10, "hi".toList⟩, ⟨7, 11, "hi".toList⟩] := by
  obtain ⟨_, _, w1, new, h1, _, h3, _, h4, h5, h6, h7, _, _⟩ :=
    broadcast_through_singleton false 3 7 (by decide) "hi".toList exampleWorld
  refine ⟨by decide, by decide, w1, h1, h4 (by decide), h5, ?_⟩
  rw [h6, h7]
  have hw : w1.invocations = [] := by
    simp only [run, step, Initialize, Except.ok.injEq] at h1
    rw [← h1]
    rfl
  rw [hw]
  rfl

/-- C10: the envelope construction is not injective: the command name
`A","Message":"B` with message `1` and the command name `A` with message
`"B","Message":1` are different pairs with the same envelope
`{"Command":"A","Message":"B","Message":1}` and the same bytes for the transport, so no
function recovers the command name and the message from the transported bytes. -/
theorem MessageString_not_injective :
    ("A\",\"Message\":\"B".toList, "1".toList) ≠ ("A".toList, "\"B\",\"Message\":1".toList) ∧
    MessageString "A\",\"Message\":\"B".toList "1".toList =
      "\x7b\"Command\":\"A\",\"Message\":\"B\",\"Message\":1\x7d".toList ∧
    MessageString "A".toList "\"B\",\"Message\":1".toList =
      "\x7b\"Command\":\"A\",\"Message\":\"B\",\"Message\":1\x7d".toList ∧
    BufferArray "A\",\"Message\":\"B".toList "1".toList =
      BufferArray "A".toList "\"B\",\"Message\":1".toList ∧
    ¬ Function.Injective (fun p : FString × FString => MessageString p.1 p.2) ∧
    ¬ Function.Injective (fun p : FString × FString => BufferArray p.1 p.2) ∧
    ¬ ∃ recover : List Nat → FString × FString,
      ∀ commandName message, recover (BufferArray commandName message) =
        (commandName, message) := by
  have hne : ("A\",\"Message\":\"B".toList, "1".toList) ≠
      ("A".toList, "\"B\",\"Message\":1".toList) := by decide
  have h1 : MessageString "A\",\"Message\":\"B".toList "1".toList =
      "\x7b\"Command\":\"A\",\"Message\":\"B\",\"Message\":1\x7d".toList := by decide
  have h2 : MessageString "A".toList "\"B\",\"Message\":1".toList =
      "\x7b\"Command\":\"A\",\"Message\":\"B\",\"Message\":1\x7d".toList := by decide
  have hb : BufferArray "A\",\"Message\":\"B".toList "1".toList =
      BufferArray "A".toList "\"B\",\"Message\":1".toList := by
    rw [BufferArray_eq, BufferArray_eq, SendBuff_eq, SendBuff_eq, h1, h2]
  refine ⟨hne, h1, h2, hb, ?_, ?_, ?_⟩
  · intro hinj
    exact hne (hinj (h1.trans h2.symm))
  · intro hinj
    exact hne (hinj hb)
  · rintro ⟨recover, hrec⟩
    have e1 := hrec "A\",\"Message\":\"B".toList "1".toList
    have e2 := hrec "A".toList "\"B\",\"Message\":1".toList
    rw [hb] at e1
    exact hne (e1.symm.trans e2)

end HTML5Message
